import Mathlib

/-!
# httprpc: a single-shot HTTP request context with middleware

Shallow embedding of `httprpc.go` and `access.go`.

Conventions of the embedding.

* A Go pointer that may be `nil` is an `Option`; a Go `error` result is an
  `Option Error` (`none` is `nil`).
* A function that may stop with a run-time panic (nil pointer dereference)
  returns an `Option`; `none` is the panic.
* The `*Context` receiver is mutable: every method takes the context and
  returns the context after the call.
* `sync.Once` is its `done` flag; the calls here are sequential.
* The collaborators of the Go standard library (URL parsing, the JSON and XML
  encoders, the default HTTP client) are the fields of `Lib`.
* `sent` and `log` are ghost fields: the requests handed to a client so far,
  and the lines written by the logger so far.
* Structs are values: two pointers to one `http.Request` or `url.URL` are not
  told apart.
-/

namespace Httprpc

/-- A Go byte slice; the nil slice is the empty list. -/
abbrev Bytes := List UInt8

/-- A Go string is an immutable byte sequence. -/
structure GoString where
  data : Bytes
deriving DecidableEq, Repr

/-- The conversion `string(bs)`: the same bytes. -/
def GoString.ofBytes (bs : Bytes) : GoString := ⟨bs⟩

/-- A non-nil Go `error` value, identified by its message. -/
structure Error where
  msg : String
deriving DecidableEq, Repr

/-- The constructor `errors.New`. -/
def errorsNew (msg : String) : Error := ⟨msg⟩

/-- A non-nil `context.Context`: only its deadline (in milliseconds) is kept. -/
structure GoCtx where
  deadline : Option Nat
deriving DecidableEq, Repr

/-- The header map `http.Header`, keys taken as already canonical. -/
abbrev Header := List (String × String)

/-- The method `Header.Set`: replaces the values stored under the key. -/
def Header.set (h : Header) (key value : String) : Header :=
  (key, value) :: h.filter (fun p => p.1 ≠ key)

/-- The method `Header.Get`: the value under the key, the empty string if none. -/
def Header.get (h : Header) (key : String) : String :=
  (h.lookup key).getD ""

/-- A parsed `*url.URL`, kept as the text it prints as. -/
structure URL where
  text : String
deriving DecidableEq, Repr

/-- The struct `http.Request`: the fields this package reads or writes. The
field `url` is the pointer `URL`, nil in a request built without one (such as
`&http.Request{}`). -/
structure Request where
  method : String
  url : Option URL
  header : Header
  body : Option Bytes
  ctx : GoCtx
deriving DecidableEq, Repr

/-- The method `Request.WithContext`: a copy of the request bound to `ctx`. -/
def Request.WithContext (r : Request) (ctx : GoCtx) : Request :=
  { r with ctx := ctx }

/-- A response body stream (`io.ReadCloser`): the bytes it still holds, the
error it reports after delivering them (`none`: clean end of stream), and how
often it has been read to the end and closed. -/
structure Body where
  pending : Bytes
  fault : Option Error
  reads : Nat
  closes : Nat
deriving DecidableEq, Repr

/-- The function `ioutil.ReadAll`: the bytes read, the error, the stream after. -/
def ReadAll (b : Body) : Bytes × Option Error × Body :=
  (b.pending, b.fault, { b with pending := [], reads := b.reads + 1 })

/-- The method `Close` of the body stream. -/
def Body.Close (b : Body) : Body :=
  { b with closes := b.closes + 1 }

/-- The struct `http.Response`. -/
structure Response where
  status : Nat
  header : Header
  body : Body
deriving DecidableEq, Repr

/-- A non-nil `*http.Client`: what its method `Do` returns for a request. -/
structure Client where
  Do : Request → Option Response × Option Error

/-- The guard `sync.Once`. -/
structure Once where
  done : Bool
deriving DecidableEq, Repr

/-- A line written by `log.Printf` in `AccessLog`: the error line with the
message of the error, or the info line. The rest of the text is not kept: the
URL is printed through the pointer taken before the next handler ran, so it
shows what that handler did to the URL in place, which a value cannot tell;
the elapsed time is real time. -/
inductive LogLine where
  | error (err : String)
  | info
deriving DecidableEq, Repr

/-- The fields of the Go struct `Context` other than `middleware`, with the
ghost fields `sent` and `log`. Handlers receive this part of the context: a
handler has no way to observe the middleware slice. -/
structure Fields where
  client : Option Client
  req : Option Request
  Response : Option Httprpc.Response
  err : Option Error
  readOnce : Once
  doOnce : Once
  bytes : Bytes
  sent : List Request
  log : List LogLine

/-- The type `HandlerFunc`, `func(*Context) error`. -/
abbrev HandlerFunc := Fields → Option (Fields × Option Error)

/-- The type `MiddlewareFunc`, `func(HandlerFunc) HandlerFunc`. Applying a
middleware returns a handler: a middleware that panics when applied is not
modelled. The applications `Do` makes are recorded by `Context.DoTraced`. -/
abbrev MiddlewareFunc := HandlerFunc → HandlerFunc

/-- The Go struct `Context`. -/
structure Context extends Fields where
  middleware : List MiddlewareFunc

/-- The standard-library collaborators, for payload values of type `V`. -/
structure Lib (V : Type) where
  parseURL : String → Except Error URL
  jsonMarshal : V → Except Error Bytes
  xmlMarshal : V → Except Error Bytes
  DefaultClient : Client

/-- The function `http.NewRequest` for a valid method: fails when the URL does
not parse, otherwise a request with that method, URL and body, an empty header
and the background context. -/
def NewRequest {V : Type} (lib : Lib V) (method url : String) (body : Option Bytes) :
    Except Error Request :=
  match lib.parseURL url with
  | .error e => .error e
  | .ok u => .ok { method := method, url := some u, header := [], body := body, ctx := ⟨none⟩ }

/-- The constant `http.MethodGet`. -/
def MethodGet : String := "GET"

/-- The constant `http.MethodPost`. -/
def MethodPost : String := "POST"

/-- NewContext returns a Context instance. -/
def NewContext : Context :=
  { client := none, req := none, Response := none, err := none,
    readOnce := ⟨false⟩, doOnce := ⟨false⟩, bytes := [], sent := [], log := [],
    middleware := [] }

/-- WithClient replaces the default http client. -/
def Context.WithClient (c : Context) (client : Option Client) : Context :=
  { c with client := client }

/-- CleanMiddleware removes the middleware used before. -/
def Context.CleanMiddleware (c : Context) : Context :=
  { c with middleware := [] }

/-- Use adds middleware to the chain. -/
def Context.Use (c : Context) (middleware : List MiddlewareFunc) : Context :=
  { c with middleware := c.middleware ++ middleware }

/-- The loop of `applyMiddleware`: the counter is `i + 1`, and `i` runs from
`len(middleware) - 1` down to 0. An index out of range is a panic; the loop
never produces one. -/
def applyMiddleware.loop (middleware : List MiddlewareFunc) : Nat → HandlerFunc → HandlerFunc
  | 0, h => h
  | i + 1, h =>
    match middleware.get? i with
    | some m => applyMiddleware.loop middleware i (m h)
    | none => fun _ => none

/-- The function `applyMiddleware`. -/
def applyMiddleware (h : HandlerFunc) (middleware : List MiddlewareFunc) : HandlerFunc :=
  applyMiddleware.loop middleware middleware.length h

/-- The terminal handler of `Do`: `c.Response, doErr = c.client.Do(c.req)`.
A nil client or a nil request is a nil pointer dereference. -/
def terminal : HandlerFunc := fun c =>
  match c.client, c.req with
  | some client, some req =>
    let r := client.Do req
    some ({ c with Response := r.1, sent := c.sent ++ [req] }, r.2)
  | _, _ => none

/-- The first result of `Do`: the nil pointer or the receiver. -/
inductive CtxRef where
  | null
  | self
deriving DecidableEq, Repr

/-- Do executes the chain. -/
def Context.Do {V : Type} (lib : Lib V) (c : Context) :
    Option (Context × CtxRef × Option Error) :=
  match c.err with
  | some e => some (c, CtxRef.null, some e)
  | none =>
    match c.req with
    | none => some (c, CtxRef.self, some (errorsNew "nil request"))
    | some _ =>
      let c1 : Context :=
        match c.client with
        | none => { c with client := some lib.DefaultClient }
        | some _ => c
      let cb := applyMiddleware terminal c1.middleware
      if c1.doOnce.done then some (c1, CtxRef.self, none)
      else
        match cb c1.toFields with
        | none => none
        | some (f, err) =>
          some ({ toFields := { f with doOnce := ⟨true⟩ }, middleware := c1.middleware },
            CtxRef.self, err)

/-- Request returns the HTTP request of the context. -/
def Context.Request (c : Context) : Option Request := c.req

/-- Bytes returns the response body as bytes. -/
def Context.Bytes {V : Type} (lib : Lib V) (c : Context) :
    Option (Context × Bytes × Option Error) :=
  if c.readOnce.done then some (c, c.bytes, none)
  else
    match c.Do lib with
    | none => none
    | some (c1, _, some e) => some ({ c1 with readOnce := ⟨true⟩ }, c1.bytes, some e)
    | some (c1, _, none) =>
      match c1.Response with
      | none => none
      | some resp =>
        let r := ReadAll resp.body
        let c2 : Context := { c1 with bytes := r.1, Response := some { resp with body := r.2.2 } }
        match r.2.1 with
        | some e => some ({ c2 with readOnce := ⟨true⟩ }, c2.bytes, some e)
        | none =>
          some ({ c2 with
                  Response := some { resp with body := r.2.2.Close },
                  readOnce := ⟨true⟩ }, c2.bytes, none)

/-- String returns the response body as a string. -/
def Context.String {V : Type} (lib : Lib V) (c : Context) :
    Option (Context × GoString × Option Error) :=
  match c.Bytes lib with
  | none => none
  | some (c1, bs, err) => some (c1, GoString.ofBytes bs, err)

/-- The function `Request(ctx, req)` of the source (the name `Request` is the
struct here): makes a context from an HTTP request. -/
def Request.toContext (ctx : GoCtx) (req : Request) : Context :=
  { NewContext with req := some (req.WithContext ctx) }

/-- Get makes a context with the GET method. -/
def Get {V : Type} (lib : Lib V) (ctx : GoCtx) (url : String) : Context :=
  match NewRequest lib MethodGet url none with
  | .error err => { NewContext with err := some err }
  | .ok req => Request.toContext ctx req

/-- Post makes a context as the source does: the request is built with
`http.MethodGet` and a nil body, then the Content-Type header is set. -/
def Post {V : Type} (lib : Lib V) (ctx : GoCtx) (url contentType : String)
    (_body : Option Bytes) : Context :=
  match NewRequest lib MethodGet url none with
  | .error err => { NewContext with err := some err }
  | .ok req =>
    Request.toContext ctx { req with header := req.header.set "Content-Type" contentType }

/-- JSON makes a context for a JSON payload. -/
def JSON {V : Type} (lib : Lib V) (ctx : GoCtx) (url : String) (i : V) : Context :=
  match lib.jsonMarshal i with
  | .error err => { NewContext with err := some err }
  | .ok bs => Post lib ctx url "application/json" (some bs)

/-- XML makes a context for an XML payload. -/
def XML {V : Type} (lib : Lib V) (ctx : GoCtx) (url : String) (i : V) : Context :=
  match lib.xmlMarshal i with
  | .error err => { NewContext with err := some err }
  | .ok bs => Post lib ctx url "application/xml" (some bs)

/-- The decoders `json.Unmarshal` and `xml.Unmarshal` for a destination of
type `D`: the destination after the call and the error returned. -/
structure Decoder (D : Type) where
  jsonUnmarshal : Bytes → D → D × Option Error
  xmlUnmarshal : Bytes → D → D × Option Error

/-- IntoJSON unmarshals the response body as JSON into the destination. -/
def Context.IntoJSON {V D : Type} (lib : Lib V) (dec : Decoder D) (c : Context) (v : D) :
    Option (Context × D × Option Error) :=
  match c.Bytes lib with
  | none => none
  | some (c1, _, some err) => some (c1, v, some err)
  | some (c1, bs, none) => some (c1, dec.jsonUnmarshal bs v)

/-- IntoXML unmarshals the response body as XML into the destination. -/
def Context.IntoXML {V D : Type} (lib : Lib V) (dec : Decoder D) (c : Context) (v : D) :
    Option (Context × D × Option Error) :=
  match c.Bytes lib with
  | none => none
  | some (c1, _, some err) => some (c1, v, some err)
  | some (c1, bs, none) => some (c1, dec.xmlUnmarshal bs v)

/-- The loop of `applyMiddleware` once more, recording the calls it makes: the
middleware functions it applies, in the order it applies them. -/
def applyMiddleware.calls (middleware : List MiddlewareFunc) : Nat → List MiddlewareFunc
  | 0 => []
  | i + 1 =>
    match middleware.get? i with
    | some m => m :: applyMiddleware.calls middleware i
    | none => []

/-- The method `Do` with the middleware applications it makes: the result of
`Do`, and the middleware functions its call of `applyMiddleware` applied, in
order. The chain is composed before the execute-once guard is consulted. -/
def Context.DoTraced {V : Type} (lib : Lib V) (c : Context) :
    Option (Context × CtxRef × Option Error) × List MiddlewareFunc :=
  match c.err with
  | some e => (some (c, CtxRef.null, some e), [])
  | none =>
    match c.req with
    | none => (some (c, CtxRef.self, some (errorsNew "nil request")), [])
    | some _ =>
      let c1 : Context :=
        match c.client with
        | none => { c with client := some lib.DefaultClient }
        | some _ => c
      let cb := applyMiddleware terminal c1.middleware
      let applied := applyMiddleware.calls c1.middleware c1.middleware.length
      if c1.doOnce.done then (some (c1, CtxRef.self, none), applied)
      else
        match cb c1.toFields with
        | none => (none, applied)
        | some (f, err) =>
          (some ({ toFields := { f with doOnce := ⟨true⟩ }, middleware := c1.middleware },
            CtxRef.self, err), applied)

/-- AccessLog logs the request: the pointer `c.Request().URL` is read before
the next handler runs (a nil request is a nil pointer dereference); after the
handler returns, `url.String()` is evaluated for the log line (a nil URL is a
nil pointer dereference), the line is written, and the error of the handler is
returned unchanged. -/
def AccessLog : MiddlewareFunc := fun next c =>
  match c.req with
  | none => none
  | some r =>
    let url := r.url
    match next c with
    | none => none
    | some (c1, err) =>
      match url with
      | none => none
      | some _ =>
        match err with
        | some e => some ({ c1 with log := c1.log ++ [LogLine.error e.msg] }, some e)
        | none => some ({ c1 with log := c1.log ++ [LogLine.info] }, none)

/-! ## Specification vocabulary -/

/-- A middleware written as the test middleware is: run `before`, call the next
handler once on the result, then run `after` on what it returned. -/
def around (before : Fields → Option Fields)
    (after : Fields → Option Error → Option (Fields × Option Error)) : MiddlewareFunc :=
  fun next c =>
    match before c with
    | none => none
    | some c1 =>
      match next c1 with
      | none => none
      | some (c2, e) => after c2 e

/-- A context on which the terminal handler can run: client and request set. -/
def Ready (c : Fields) : Prop := c.client.isSome = true ∧ c.req.isSome = true

/-- The middleware `m` calls its next handler exactly once: entered with a
client and a request in place, it runs `before` (which keeps both in place and
issues no request), calls `next` once, runs `after` on the outcome (no request
issued) and returns. `after` may use the context as it was on entry. -/
def CallsNextOnce (m : MiddlewareFunc) : Prop :=
  ∃ (before : Fields → Fields) (after : Fields → Fields → Option Error → Fields × Option Error),
    (∀ c, Ready c → Ready (before c) ∧ (before c).sent = c.sent) ∧
    (∀ c0 c e, (after c0 c e).1.sent = c.sent) ∧
    ∀ (next : HandlerFunc) (c : Fields), Ready c →
      m next c =
        match next (before c) with
        | none => none
        | some (c2, e) => some (after c c2 e)

/-- A call of one of the two chain-editing methods. -/
inductive ChainOp where
  | use (middleware : List MiddlewareFunc)
  | clean

/-- Whether the call is `CleanMiddleware()`. -/
def ChainOp.isClean : ChainOp → Bool
  | ChainOp.use _ => false
  | ChainOp.clean => true

/-- The arguments of the call: those of `Use`, none for `CleanMiddleware`. -/
def ChainOp.args : ChainOp → List MiddlewareFunc
  | ChainOp.use ms => ms
  | ChainOp.clean => []

/-- The context after one chain-editing call. -/
def ChainOp.run (c : Context) : ChainOp → Context
  | ChainOp.use ms => c.Use ms
  | ChainOp.clean => c.CleanMiddleware

/-- The context after a sequence of chain-editing calls, in call order. -/
def runChainOps (c : Context) (ops : List ChainOp) : Context :=
  ops.foldl ChainOp.run c

/-- The calls made since the last `CleanMiddleware()`: the longest run of `Use`
calls at the end of the sequence. -/
def sinceLastClean (ops : List ChainOp) : List ChainOp :=
  (ops.reverse.takeWhile fun op => !op.isClean).reverse

/-- The chain the specification describes after the calls `ops` on a context
whose chain was `chain`: the arguments of the `Use` calls since the last
`CleanMiddleware()` concatenated in call and argument order, after the chain
the context started with when there was no `CleanMiddleware()` at all. -/
def chainAfter (chain : List MiddlewareFunc) (ops : List ChainOp) : List MiddlewareFunc :=
  (if ops.any ChainOp.isClean then [] else chain) ++
    ((sinceLastClean ops).map ChainOp.args).flatten

/-- The two contexts agree on every field but `client`. -/
def SameButClient (a b : Fields) : Prop :=
  a.req = b.req ∧ a.Response = b.Response ∧ a.err = b.err ∧ a.readOnce = b.readOnce ∧
    a.doOnce = b.doOnce ∧ a.bytes = b.bytes ∧ a.sent = b.sent ∧ a.log = b.log

/-- The context is past its execution: a construction error is set, or the
request is missing, or the execute-once guard is done. Every `Do` leaves the
context in this state. -/
def Settled (c : Fields) : Prop :=
  c.err.isSome = true ∨ c.req = none ∨ c.doOnce.done = true

/-- The middleware `m` calls its next handler exactly once, as `CallsNextOnce`
says, and returns the error that call returned. -/
def PassesErrorOn (m : MiddlewareFunc) : Prop :=
  ∃ (before : Fields → Fields) (after : Fields → Fields → Option Error → Fields),
    (∀ c, Ready c → Ready (before c) ∧ (before c).sent = c.sent) ∧
    (∀ c0 c e, (after c0 c e).sent = c.sent) ∧
    ∀ (next : HandlerFunc) (c : Fields), Ready c →
      m next c =
        match next (before c) with
        | none => none
        | some (c2, e) => some (after c c2 e, e)

/-- The middleware `m` returns the error `e` without calling its next handler:
what it does to the context and returns is the same for every `next`, and it
issues no request. -/
def ShortCircuits (m : MiddlewareFunc) (e : Error) : Prop :=
  ∃ g : Fields → Fields, (∀ c, (g c).sent = c.sent) ∧
    ∀ (next : HandlerFunc) (c : Fields), m next c = some (g c, some e)

/-- The context after `n` sequential calls of `Do`, results dropped. -/
def DoN {V : Type} (lib : Lib V) : Nat → Context → Option Context
  | 0, c => some c
  | n + 1, c =>
    match c.Do lib with
    | none => none
    | some (c1, _, _) => DoN lib n c1

/-- The context `Do` runs the chain on: the client defaulted when nil. -/
def withDefaultClient {V : Type} (lib : Lib V) (c : Fields) : Fields :=
  { c with client := some (c.client.getD lib.DefaultClient) }

/-! ## Concrete collaborators, for evaluating the code on inputs -/

/-- A library in which every URL but `://bad` parses and every value but 0
marshals. -/
def sampleLib : Lib Nat :=
  { parseURL := fun s =>
      if s = "://bad" then .error ⟨"missing protocol scheme"⟩ else .ok ⟨s⟩
    jsonMarshal := fun n =>
      if n = 0 then .error ⟨"json: unsupported value"⟩ else .ok [34, 118, 34]
    xmlMarshal := fun n =>
      if n = 0 then .error ⟨"xml: unsupported value"⟩ else .ok [60, 118, 47, 62]
    DefaultClient :=
      ⟨fun req =>
        (some { status := 200, header := [("K", req.header.get "K" ++ "T")],
                body := ⟨[72, 105], none, 0, 0⟩ }, none)⟩ }

/-- A client whose call fails: no response and a deadline error. -/
def failClient : Client :=
  ⟨fun _ => (none, some ⟨"context deadline exceeded"⟩)⟩

/-- A client whose response body breaks off after one byte. -/
def truncClient : Client :=
  ⟨fun _ =>
    (some { status := 200, header := [],
            body := ⟨[72], some ⟨"unexpected EOF"⟩, 0, 0⟩ }, none)⟩

/-- A request to `http://example.test`, as `http.NewRequest` builds it. -/
def sampleReq : Request :=
  { method := MethodGet, url := some ⟨"http://example.test"⟩, header := [], body := none,
    ctx := ⟨none⟩ }

/-- The request `&http.Request{}`: no method, a nil URL, no header, no body. -/
def bareReq : Request :=
  { method := "", url := none, header := [], body := none, ctx := ⟨none⟩ }

/-- A middleware that only calls next and returns what it returned. -/
def passThrough : MiddlewareFunc := fun next c => next c

/-- The part before `next` of the middleware of `TestContext_Do`, with the tag
appended to the request header `K` instead of replacing it. -/
def tagIn (tag : String) : Fields → Option Fields := fun c =>
  match c.req with
  | none => none
  | some r =>
    some { c with req := some { r with header := r.header.set "K" (r.header.get "K" ++ tag) } }

/-- The part after `next` of the middleware of `TestContext_Do`: an error is
passed on, otherwise the tag is appended to the response header `K`. -/
def tagOut (tag : String) : Fields → Option Error → Option (Fields × Option Error) := fun c e =>
  match e with
  | some err => some (c, some err)
  | none =>
    match c.Response with
    | none => none
    | some resp =>
      some ({ c with
              Response := some { resp with
                header := resp.header.set "K" (resp.header.get "K" ++ tag) } }, none)

/-- A middleware that calls next and returns nil whatever next returned. -/
def swallowError : MiddlewareFunc := fun next c =>
  match next c with
  | none => none
  | some (c2, _) => some (c2, none)

/-- A middleware that returns the error without calling next. -/
def denyWith (e : Error) : MiddlewareFunc := fun _ c => some (c, some e)

/-- A middleware whose handler panics as soon as it is entered. -/
def panicOnEntry : MiddlewareFunc := fun _ _ => none

/-- Decoders into a byte-string destination: JSON fails on empty input, XML
fails unless the input starts with `<`. -/
def sampleDecoder : Decoder Bytes :=
  { jsonUnmarshal := fun bs d =>
      if bs = [] then (d, some ⟨"unexpected end of JSON input"⟩) else (bs, none)
    xmlUnmarshal := fun bs d =>
      if bs.head? = some 60 then (bs, none) else (d, some ⟨"EOF"⟩) }

/-- The context `Get` returns for `http://example.test`, after one `Bytes`. -/
def sampleRead : Context :=
  match (Get sampleLib ⟨none⟩ "http://example.test").Bytes sampleLib with
  | some r => r.1
  | none => NewContext

/-! ## Lemmas -/

theorem applyMiddleware_loop_take (ms : List MiddlewareFunc) :
    ∀ (n : Nat) (h : HandlerFunc), n ≤ ms.length →
      applyMiddleware.loop ms n h = (ms.take n).foldr (fun m acc => m acc) h := by
  intro n
  induction n with
  | zero => intro h _; simp [applyMiddleware.loop]
  | succ i ih =>
    intro h hle
    have hlt : i < ms.length := hle
    have hget : ms.get? i = some (ms.get ⟨i, hlt⟩) := List.get?_eq_get hlt
    have htake : ms.take (i + 1) = ms.take i ++ [ms.get ⟨i, hlt⟩] := by
      rw [List.take_succ, ← List.get?_eq_getElem?, hget]; rfl
    rw [applyMiddleware.loop, hget]
    simp only []
    rw [ih _ (Nat.le_of_lt hlt), htake, List.foldr_append]
    rfl

theorem applyMiddleware_eq_foldr (h : HandlerFunc) (ms : List MiddlewareFunc) :
    applyMiddleware h ms = ms.foldr (fun m acc => m acc) h := by
  unfold applyMiddleware
  rw [applyMiddleware_loop_take ms ms.length h (Nat.le_refl _), List.take_length]

theorem Do_fresh {V : Type} (lib : Lib V) (c : Context) (r : Request)
    (herr : c.err = none) (hreq : c.req = some r) (hfresh : c.doOnce.done = false) :
    c.Do lib =
      match applyMiddleware terminal c.middleware (withDefaultClient lib c.toFields) with
      | none => none
      | some (f, e) =>
        some ({ toFields := { f with doOnce := ⟨true⟩ }, middleware := c.middleware },
          CtxRef.self, e) := by
  obtain ⟨f, mw⟩ := c
  obtain ⟨client, req, resp, err, readOnce, doOnce, bytes, sent, log⟩ := f
  simp only at herr hreq hfresh
  subst herr hreq
  cases client <;> simp [Context.Do, withDefaultClient, hfresh]

theorem Do_done {V : Type} (lib : Lib V) (c : Context) (hdone : c.doOnce.done = true) :
    ∃ c1 r e, c.Do lib = some (c1, r, e) ∧ c1.sent = c.sent ∧ c1.doOnce.done = true ∧
      c1.Response = c.Response ∧ c1.middleware = c.middleware := by
  obtain ⟨f, mw⟩ := c
  obtain ⟨client, req, resp, err, readOnce, doOnce, bytes, sent, log⟩ := f
  simp only at hdone
  cases err with
  | some e => exact ⟨_, _, _, rfl, rfl, hdone, rfl, rfl⟩
  | none =>
    cases req with
    | none => exact ⟨_, _, _, rfl, rfl, hdone, rfl, rfl⟩
    | some r =>
      cases client <;> simp [Context.Do, hdone]

theorem terminal_issues_one (c : Fields) (h : Ready c) :
    ∃ c1 e, terminal c = some (c1, e) ∧ c1.sent.length = c.sent.length + 1 := by
  obtain ⟨hc, hr⟩ := h
  obtain ⟨cl, hcl⟩ := Option.isSome_iff_exists.mp hc
  obtain ⟨r, hreq⟩ := Option.isSome_iff_exists.mp hr
  refine ⟨{ c with Response := (cl.Do r).1, sent := c.sent ++ [r] }, (cl.Do r).2, ?_, ?_⟩
  · simp only [terminal, hcl, hreq]
  · simp

theorem chain_issues_one (ms : List MiddlewareFunc) (hms : ∀ m ∈ ms, CallsNextOnce m) :
    ∀ c, Ready c →
      ∃ c1 e, ms.foldr (fun m acc => m acc) terminal c = some (c1, e) ∧
        c1.sent.length = c.sent.length + 1 := by
  induction ms with
  | nil => intro c hc; exact terminal_issues_one c hc
  | cons m rest ih =>
    intro c hc
    obtain ⟨before, after, hb, ha, hm⟩ := hms m (List.mem_cons_self _ _)
    have ih2 := ih (fun x hx => hms x (List.mem_cons_of_mem _ hx))
    obtain ⟨hready, hsent⟩ := hb c hc
    obtain ⟨c2, e, hrun, hlen⟩ := ih2 (before c) hready
    refine ⟨(after c c2 e).1, (after c c2 e).2, ?_, ?_⟩
    · simp only [List.foldr]
      rw [hm _ c hc, hrun]
    · rw [ha, hlen, hsent]

theorem DoN_done {V : Type} (lib : Lib V) (n : Nat) :
    ∀ c : Context, c.doOnce.done = true →
      ∃ c1, DoN lib n c = some c1 ∧ c1.sent = c.sent ∧ c1.Response = c.Response := by
  induction n with
  | zero => intro c _; exact ⟨c, rfl, rfl, rfl⟩
  | succ k ih =>
    intro c hc
    obtain ⟨c1, r, e, hdo, hsent, hdone, hresp, _⟩ := Do_done lib c hc
    obtain ⟨c2, hn, hs2, hr2⟩ := ih c1 hdone
    refine ⟨c2, ?_, hs2.trans hsent, hr2.trans hresp⟩
    simp only [DoN, hdo]
    exact hn

theorem Post_eq_toContext {V : Type} (lib : Lib V) (ctx : GoCtx) (url contentType : String)
    (body : Option Bytes) (u : URL) (hurl : lib.parseURL url = .ok u) :
    Post lib ctx url contentType body = Request.toContext ctx
      { method := "GET", url := some u, header := [("Content-Type", contentType)],
        body := none, ctx := ⟨none⟩ } := by
  simp [Post, NewRequest, hurl, Header.set, MethodGet]

theorem Do_construction_error {V : Type} (lib : Lib V) (c : Context) (e : Error)
    (herr : c.err = some e) : c.Do lib = some (c, CtxRef.null, some e) := by
  simp [Context.Do, herr]

theorem Bytes_done {V : Type} (lib : Lib V) (c : Context) (hdone : c.readOnce.done = true) :
    c.Bytes lib = some (c, c.bytes, none) := by
  simp [Context.Bytes, hdone]

theorem Bytes_clean_read {V : Type} (lib : Lib V) (c c1 : Context) (r : CtxRef)
    (resp : Response) (hread : c.readOnce.done = false)
    (hdo : c.Do lib = some (c1, r, none)) (hresp : c1.Response = some resp)
    (hfault : resp.body.fault = none) :
    ∃ c2, c.Bytes lib = some (c2, resp.body.pending, none) ∧
      c2.readOnce.done = true ∧ c2.bytes = resp.body.pending ∧
      c2.Response.map (fun p => (p.body.reads, p.body.closes))
        = some (resp.body.reads + 1, resp.body.closes + 1) ∧
      c2.sent = c1.sent := by
  simp only [Context.Bytes, hread, hdo, hresp, ReadAll, hfault]
  exact ⟨_, rfl, rfl, rfl, rfl, rfl⟩

theorem Do_nil_request {V : Type} (lib : Lib V) (c : Context) (herr : c.err = none)
    (hreq : c.req = none) :
    c.Do lib = some (c, CtxRef.self, some (errorsNew "nil request")) := by
  simp [Context.Do, herr, hreq]

theorem SameButClient.refl (a : Fields) : SameButClient a a :=
  ⟨rfl, rfl, rfl, rfl, rfl, rfl, rfl, rfl⟩

theorem SameButClient.trans {a b c : Fields} (h1 : SameButClient a b)
    (h2 : SameButClient b c) : SameButClient a c := by
  obtain ⟨p1, p2, p3, p4, p5, p6, p7, p8⟩ := h1
  obtain ⟨q1, q2, q3, q4, q5, q6, q7, q8⟩ := h2
  exact ⟨p1.trans q1, p2.trans q2, p3.trans q3, p4.trans q4, p5.trans q5, p6.trans q6,
    p7.trans q7, p8.trans q8⟩

theorem Do_settles {V : Type} (lib : Lib V) (c c1 : Context) (r : CtxRef) (e : Option Error)
    (h : c.Do lib = some (c1, r, e)) : Settled c1.toFields := by
  obtain ⟨f, mw⟩ := c
  obtain ⟨client, req, resp, err, readOnce, doOnce, bytes, sent, log⟩ := f
  cases err with
  | some e0 =>
    simp only [Context.Do] at h
    injection h with h
    injection h with h _
    subst h
    exact Or.inl rfl
  | none =>
    cases req with
    | none =>
      simp only [Context.Do] at h
      injection h with h
      injection h with h _
      subst h
      exact Or.inr (Or.inl rfl)
    | some rq =>
      obtain ⟨d⟩ := doOnce
      cases d with
      | true =>
        cases client <;>
        · simp only [Context.Do, if_true] at h
          injection h with h
          injection h with h _
          subst h
          exact Or.inr (Or.inr rfl)
      | false =>
        cases client <;>
        · simp only [Context.Do] at h
          split at h
          · rename_i hc
            exact absurd hc (by simp)
          · split at h
            · exact absurd h (by simp)
            · injection h with h
              injection h with h _
              subst h
              exact Or.inr (Or.inr rfl)

theorem Do_settled {V : Type} (lib : Lib V) (c : Context) (h : Settled c.toFields) :
    ∃ c1 r e, c.Do lib = some (c1, r, e) ∧ SameButClient c1.toFields c.toFields ∧
      c1.middleware = c.middleware ∧ Settled c1.toFields := by
  obtain ⟨f, mw⟩ := c
  obtain ⟨client, req, resp, err, readOnce, doOnce, bytes, sent, log⟩ := f
  cases err with
  | some e0 => exact ⟨_, _, _, rfl, SameButClient.refl _, rfl, Or.inl rfl⟩
  | none =>
    cases req with
    | none => exact ⟨_, _, _, rfl, SameButClient.refl _, rfl, Or.inr (Or.inl rfl)⟩
    | some rq =>
      have hd : doOnce.done = true := by
        rcases h with h | h | h
        · exact absurd h (by simp)
        · exact absurd h (by simp)
        · exact h
      obtain ⟨d⟩ := doOnce
      simp only at hd
      subst hd
      cases client with
      | none =>
        exact ⟨_, _, _, rfl, ⟨rfl, rfl, rfl, rfl, rfl, rfl, rfl, rfl⟩, rfl, Or.inr (Or.inr rfl)⟩
      | some cl =>
        exact ⟨_, _, _, rfl, ⟨rfl, rfl, rfl, rfl, rfl, rfl, rfl, rfl⟩, rfl, Or.inr (Or.inr rfl)⟩

theorem DoN_settled {V : Type} (lib : Lib V) (n : Nat) :
    ∀ c : Context, Settled c.toFields →
      ∃ c1, DoN lib n c = some c1 ∧ SameButClient c1.toFields c.toFields ∧
        c1.middleware = c.middleware := by
  induction n with
  | zero => intro c _; exact ⟨c, rfl, SameButClient.refl _, rfl⟩
  | succ k ih =>
    intro c hc
    obtain ⟨c1, r, e, hdo, hsame, hmw, hset⟩ := Do_settled lib c hc
    obtain ⟨c2, hn, hsame2, hmw2⟩ := ih c1 hset
    refine ⟨c2, ?_, hsame2.trans hsame, hmw2.trans hmw⟩
    simp only [DoN, hdo]
    exact hn

theorem sinceLastClean_snoc (ops : List ChainOp) (op : ChainOp) :
    sinceLastClean (ops ++ [op]) =
      if op.isClean then [] else sinceLastClean ops ++ [op] := by
  unfold sinceLastClean
  rw [List.reverse_append]
  cases hop : op.isClean <;> simp [List.takeWhile, hop]

theorem chainAfter_snoc_use (chain : List MiddlewareFunc) (ops : List ChainOp)
    (ms : List MiddlewareFunc) :
    chainAfter chain (ops ++ [ChainOp.use ms]) = chainAfter chain ops ++ ms := by
  unfold chainAfter
  rw [sinceLastClean_snoc]
  simp [ChainOp.isClean, ChainOp.args]

theorem chainAfter_snoc_clean (chain : List MiddlewareFunc) (ops : List ChainOp) :
    chainAfter chain (ops ++ [ChainOp.clean]) = [] := by
  unfold chainAfter
  rw [sinceLastClean_snoc]
  simp [ChainOp.isClean]

theorem runChainOps_snoc (c : Context) (ops : List ChainOp) (op : ChainOp) :
    runChainOps c (ops ++ [op]) = ChainOp.run (runChainOps c ops) op := by
  simp [runChainOps, List.foldl_append]

theorem foldr_short_circuit (pre rest : List MiddlewareFunc) (b : MiddlewareFunc)
    (e : Error) (g : Fields → Fields)
    (hb : ∀ (next : HandlerFunc) (c : Fields), b next c = some (g c, some e)) :
    (pre ++ b :: rest).foldr (fun m acc => m acc) terminal
      = pre.foldr (fun m acc => m acc) (fun c => some (g c, some e)) := by
  rw [List.foldr_append]
  congr 1
  funext c
  exact hb _ c

theorem chain_passes_error (pre : List MiddlewareFunc) (hpre : ∀ m ∈ pre, PassesErrorOn m)
    (e : Error) (g : Fields → Fields) (hg : ∀ c, (g c).sent = c.sent) :
    ∀ c, Ready c →
      ∃ c1, pre.foldr (fun m acc => m acc) (fun c => some (g c, some e)) c
          = some (c1, some e) ∧ c1.sent = c.sent := by
  induction pre with
  | nil => intro c _; exact ⟨g c, rfl, hg c⟩
  | cons m rest ih =>
    intro c hc
    obtain ⟨before, after, hbf, haf, hm⟩ := hpre m (List.mem_cons_self _ _)
    obtain ⟨hready, hsent⟩ := hbf c hc
    obtain ⟨c2, hrun, hs2⟩ := ih (fun x hx => hpre x (List.mem_cons_of_mem _ hx)) (before c) hready
    refine ⟨after c c2 (some e), ?_, ?_⟩
    · simp only [List.foldr]
      rw [hm _ c hc, hrun]
    · rw [haf, hs2, hsent]

theorem AccessLog_eq (next : HandlerFunc) (c : Fields) (r : Request) (u : URL)
    (hreq : c.req = some r) (hurl : r.url = some u) :
    AccessLog next c =
      (next c).map fun p =>
        ({ p.1 with
            log := p.1.log ++
              [match p.2 with
               | some e => LogLine.error e.msg
               | none => LogLine.info] }, p.2) := by
  simp only [AccessLog, hreq, hurl]
  cases next c with
  | none => rfl
  | some p =>
    obtain ⟨c1, e⟩ := p
    cases e <;> rfl

theorem applyMiddleware_calls_take (ms : List MiddlewareFunc) :
    ∀ n : Nat, n ≤ ms.length → applyMiddleware.calls ms n = (ms.take n).reverse := by
  intro n
  induction n with
  | zero => intro _; simp [applyMiddleware.calls]
  | succ i ih =>
    intro hle
    have hlt : i < ms.length := hle
    have hget : ms.get? i = some (ms.get ⟨i, hlt⟩) := List.get?_eq_get hlt
    have htake : ms.take (i + 1) = ms.take i ++ [ms.get ⟨i, hlt⟩] := by
      rw [List.take_succ, ← List.get?_eq_getElem?, hget]; rfl
    rw [applyMiddleware.calls, hget]
    simp only []
    rw [ih (Nat.le_of_lt hlt), htake, List.reverse_append]
    rfl

theorem DoTraced_fst {V : Type} (lib : Lib V) (c : Context) :
    (c.DoTraced lib).1 = c.Do lib := by
  obtain ⟨f, mw⟩ := c
  obtain ⟨client, req, resp, err, readOnce, doOnce, bytes, sent, log⟩ := f
  obtain ⟨d⟩ := doOnce
  cases err with
  | some e => rfl
  | none =>
    cases req with
    | none => rfl
    | some rq =>
      cases d with
      | true => cases client <;> rfl
      | false =>
        cases client <;>
        · simp only [Context.DoTraced, Context.Do]
          split
          · rfl
          · generalize applyMiddleware terminal mw _ = x
            rcases x with _ | ⟨f, e⟩ <;> rfl

theorem DoTraced_calls {V : Type} (lib : Lib V) (c : Context) (herr : c.err = none)
    (hreq : c.req.isSome = true) : (c.DoTraced lib).2 = c.middleware.reverse := by
  obtain ⟨rq, hr⟩ := Option.isSome_iff_exists.mp hreq
  obtain ⟨f, mw⟩ := c
  obtain ⟨client, req, resp, err, readOnce, doOnce, bytes, sent, log⟩ := f
  obtain ⟨d⟩ := doOnce
  simp only at herr hr
  subst herr hr
  have hcalls : applyMiddleware.calls mw mw.length = mw.reverse := by
    rw [applyMiddleware_calls_take mw mw.length (Nat.le_refl _), List.take_length]
  cases d with
  | true => cases client <;> exact hcalls
  | false =>
    cases client <;>
    · simp only [Context.DoTraced]
      split
      · exact hcalls
      · generalize applyMiddleware terminal mw _ = x
        rcases x with _ | ⟨f, e⟩ <;> exact hcalls

/-! ## Claims -/

/-- C1: `applyMiddleware(h, m1, ..., mn)` is `m1(m2(...(mn(h))...))`; hence on a
context where `Use` registered M1 and then M2, `Do` runs the code of M1 before
its call to next, then that of M2, then the transport call, then the code of
M2 after next, then the code of M1 after next, which receives the context and
error M2 returned. -/
theorem C1_middleware_onion_order {V : Type} (lib : Lib V) :
    (∀ (h : HandlerFunc) (ms : List MiddlewareFunc),
      applyMiddleware h ms = ms.foldr (fun m acc => m acc) h) ∧
    (∀ (c : Context) (b1 b2 : Fields → Option Fields)
        (a1 a2 : Fields → Option Error → Option (Fields × Option Error)),
      c.err = none → c.req.isSome = true → c.doOnce.done = false → c.middleware = [] →
      ((c.Use [around b1 a1]).Use [around b2 a2]).Do lib =
        (b1 (withDefaultClient lib c.toFields)).bind fun c1 =>
        (b2 c1).bind fun c2 =>
        (terminal c2).bind fun r =>
        (a2 r.1 r.2).bind fun r2 =>
        (a1 r2.1 r2.2).map fun r1 =>
          (({ toFields := { r1.1 with doOnce := ⟨true⟩ },
              middleware := [around b1 a1, around b2 a2] } : Context), CtxRef.self, r1.2)) := by
  refine ⟨applyMiddleware_eq_foldr, ?_⟩
  intro c b1 b2 a1 a2 herr hreq hfresh hmw
  obtain ⟨r, hr⟩ := Option.isSome_iff_exists.mp hreq
  have hmw2 : ((c.Use [around b1 a1]).Use [around b2 a2]).middleware
      = [around b1 a1, around b2 a2] := by
    simp [Context.Use, hmw]
  rw [Do_fresh lib ((c.Use [around b1 a1]).Use [around b2 a2]) r herr hr hfresh, hmw2,
    applyMiddleware_eq_foldr]
  simp only [List.foldr, around]
  have hfields : ((c.Use [around b1 a1]).Use [around b2 a2]).toFields = c.toFields := rfl
  rw [hfields]
  cases b1 (withDefaultClient lib c.toFields) with
  | none => rfl
  | some c1 =>
    simp only [Option.bind]
    cases b2 c1 with
    | none => rfl
    | some c2 =>
      simp only []
      cases terminal c2 with
      | none => rfl
      | some r3 =>
        obtain ⟨f3, e3⟩ := r3
        simp only []
        cases a2 f3 e3 with
        | none => rfl
        | some r2 =>
          obtain ⟨f2, e2⟩ := r2
          simp only []
          cases a1 f2 e2 with
          | none => rfl
          | some r1 => rfl

theorem C1_middleware_onion_order_witness :
    (Request.toContext ⟨none⟩ sampleReq).err = none ∧
    (Request.toContext ⟨none⟩ sampleReq).req.isSome = true ∧
    (Request.toContext ⟨none⟩ sampleReq).doOnce.done = false ∧
    (Request.toContext ⟨none⟩ sampleReq).middleware = [] ∧
    ((((Request.toContext ⟨none⟩ sampleReq).Use [around (tagIn "1") (tagOut "1")]).Use
        [around (tagIn "2") (tagOut "2")]).Do sampleLib).map
      (fun r => (r.1.sent.map fun q => q.header.get "K",
                 r.1.Response.map fun p => p.header.get "K", r.2.2))
      = some (["12"], some "12T21", none) := by
  refine ⟨rfl, rfl, rfl, rfl, ?_⟩
  rw [(C1_middleware_onion_order sampleLib).2 (Request.toContext ⟨none⟩ sampleReq)
    (tagIn "1") (tagIn "2") (tagOut "1") (tagOut "2") rfl rfl rfl rfl]
  decide

/-- C2: on a context with a request, no construction error and an unused
execute-once guard, whose middleware each call the next handler exactly once,
the first `Do` hands exactly one request to the transport and, for every
N >= 1, N sequential calls of `Do` hand over exactly that one and no more. -/
theorem C2_transport_called_once {V : Type} (lib : Lib V) (c : Context)
    (herr : c.err = none) (hreq : c.req.isSome = true) (hfresh : c.doOnce.done = false)
    (hmw : ∀ m ∈ c.middleware, CallsNextOnce m) (N : Nat) (hN : 1 ≤ N) :
    ∃ c1 r cN, c.Do lib = some (c1, r) ∧ c1.sent.length = c.sent.length + 1 ∧
      DoN lib N c = some cN ∧ cN.sent = c1.sent ∧ cN.sent.length = c.sent.length + 1 := by
  obtain ⟨req, hr⟩ := Option.isSome_iff_exists.mp hreq
  have hready : Ready (withDefaultClient lib c.toFields) := ⟨rfl, hreq⟩
  obtain ⟨f, e, hrun, hlen⟩ := chain_issues_one c.middleware hmw _ hready
  have hdo : c.Do lib =
      some ({ toFields := { f with doOnce := ⟨true⟩ }, middleware := c.middleware },
        CtxRef.self, e) := by
    rw [Do_fresh lib c req herr hr hfresh, applyMiddleware_eq_foldr, hrun]
  have hlen1 : f.sent.length = c.sent.length + 1 := hlen
  obtain ⟨k, rfl⟩ : ∃ k, N = k + 1 := ⟨N - 1, by omega⟩
  obtain ⟨cN, hN1, hsN, _⟩ :=
    DoN_done lib k
      ({ toFields := { f with doOnce := ⟨true⟩ }, middleware := c.middleware } : Context) rfl
  refine ⟨_, _, cN, hdo, hlen1, ?_, hsN, ?_⟩
  · simp only [DoN, hdo]
    exact hN1
  · rw [hsN]; exact hlen1

theorem C2_transport_called_once_witness :
    ∃ c1 r cN,
      ((Request.toContext ⟨none⟩ sampleReq).Use
          [fun next c => match next c with
                         | none => none
                         | some (c2, e) => some (c2, e)]).Do sampleLib = some (c1, r) ∧
      c1.sent.length = 0 + 1 ∧
      DoN sampleLib 3 ((Request.toContext ⟨none⟩ sampleReq).Use
          [fun next c => match next c with
                         | none => none
                         | some (c2, e) => some (c2, e)]) = some cN ∧
      cN.sent = c1.sent ∧ cN.sent.length = 0 + 1 :=
  C2_transport_called_once sampleLib
    ((Request.toContext ⟨none⟩ sampleReq).Use
      [fun next c => match next c with
                     | none => none
                     | some (c2, e) => some (c2, e)])
    rfl rfl rfl
    (by
      intro m hm
      have hm2 : m = fun next c => match next c with
                                   | none => none
                                   | some (c2, e) => some (c2, e) := by
        simpa [Context.Use, Request.toContext, NewContext] using hm
      subst hm2
      exact ⟨fun c => c, fun _ c e => (c, e), fun c hc => ⟨hc, rfl⟩, fun _ _ _ => rfl,
        fun next c _ => rfl⟩)
    3 (by decide)

/-- C3: the code at the failing input. On a context whose client fails with a
deadline error, the first `Do` returns that error and the second `Do` returns
a nil error: the execute-once guard skips the closure that assigns `err`. -/
theorem C3_second_do_returns_nil_error :
    ∃ c1 c2,
      ((Request.toContext ⟨none⟩ sampleReq).WithClient (some failClient)).Do sampleLib
        = some (c1, CtxRef.self, some ⟨"context deadline exceeded"⟩) ∧
      c1.Do sampleLib = some (c2, CtxRef.self, none) ∧
      c2.Response = none ∧ c2.sent = [sampleReq] :=
  ⟨_, _, rfl, rfl, rfl, rfl⟩

/-- C4: the code at the failing input. On the context `Get` returns for a URL
that does not parse, `Do` returns the construction error on every call and the
first `Bytes` returns it, but the second `Bytes` and a following `String`
return a nil error with no bytes; no request reaches the transport. -/
theorem C4_second_bytes_returns_nil_error :
    ∃ c1 c2 c3 c4,
      (Get sampleLib ⟨none⟩ "://bad").Bytes sampleLib
        = some (c1, [], some ⟨"missing protocol scheme"⟩) ∧
      c1.Bytes sampleLib = some (c2, [], none) ∧
      c2.String sampleLib = some (c3, GoString.ofBytes [], none) ∧
      c3.Do sampleLib = some (c4, CtxRef.null, some ⟨"missing protocol scheme"⟩) ∧
      c4.sent = [] :=
  ⟨_, _, _, _, rfl, rfl, rfl, rfl, rfl⟩

/-- C5: the code at the failing input. After an explicit `Do` that failed with
no response, `Bytes` gets a nil error from its own call of `Do`, goes on to
read `c.Body` and dereferences the nil response: a panic. When `Bytes` itself
triggers the failing `Do` it returns the error and reads nothing. -/
theorem C5_bytes_after_failed_do_panics :
    (∃ c1,
      ((Request.toContext ⟨none⟩ sampleReq).WithClient (some failClient)).Do sampleLib
        = some (c1, CtxRef.self, some ⟨"context deadline exceeded"⟩) ∧
      c1.Response = none ∧
      c1.Bytes sampleLib = none) ∧
    (∃ c1,
      ((Request.toContext ⟨none⟩ sampleReq).WithClient (some failClient)).Bytes sampleLib
        = some (c1, [], some ⟨"context deadline exceeded"⟩) ∧
      c1.Response = none) :=
  ⟨⟨_, rfl, rfl, rfl⟩, ⟨_, rfl, rfl⟩⟩

/-- C6: the code at the failing input. `Do` succeeds with a response whose
body breaks off while being read: two calls of `Bytes` return the same bytes
and the body is read once, but it is never closed, since the closure returns
on the read error before `defer c.Body.Close()`. -/
theorem C6_body_left_open_on_read_error :
    ∃ c1 c2 c3,
      ((Request.toContext ⟨none⟩ sampleReq).WithClient (some truncClient)).Do sampleLib
        = some (c1, CtxRef.self, none) ∧
      c1.Bytes sampleLib = some (c2, [72], some ⟨"unexpected EOF"⟩) ∧
      c2.Bytes sampleLib = some (c3, [72], none) ∧
      c3.Response.map (fun p => (p.body.reads, p.body.closes)) = some (1, 0) :=
  ⟨_, _, _, rfl, rfl, rfl, rfl⟩

/-- C7: on the context `Get` returns for a URL that parses (no middleware),
when the transport answers the request with a response and a nil error and
the body of the response reads without error, `String` returns the content of
that body as a string with a nil error; and on every context `String` returns
the string of the bytes `Bytes` returns, with the same error. -/
theorem C7_string_returns_body {V : Type} (lib : Lib V) (ctx : GoCtx) (url : String) (u : URL)
    (resp : Response) (hurl : lib.parseURL url = .ok u)
    (hresp : lib.DefaultClient.Do
      { method := MethodGet, url := some u, header := [], body := none, ctx := ctx }
        = (some resp, none))
    (hread : resp.body.fault = none) :
    (∃ c1, (Get lib ctx url).String lib
        = some (c1, GoString.ofBytes resp.body.pending, none)) ∧
    (∀ c : Context, c.String lib =
        (c.Bytes lib).map fun r => (r.1, GoString.ofBytes r.2.1, r.2.2)) := by
  constructor
  · have hget : Get lib ctx url = Request.toContext ctx
        { method := MethodGet, url := some u, header := [], body := none, ctx := ⟨none⟩ } := by
      simp [Get, NewRequest, hurl]
    have hdo := Do_fresh lib (Get lib ctx url)
      { method := MethodGet, url := some u, header := [], body := none, ctx := ctx }
      (by rw [hget]; rfl) (by rw [hget]; rfl) (by rw [hget]; rfl)
    rw [hget] at hdo
    have hterm : applyMiddleware terminal (Request.toContext ctx
        { method := MethodGet, url := some u, header := [], body := none, ctx := ⟨none⟩ }).middleware
          = terminal := rfl
    rw [hterm] at hdo
    simp only [terminal, withDefaultClient, Request.toContext, NewContext, Request.WithContext,
      Option.getD, hresp] at hdo
    rw [hget]
    simp only [Context.String, Context.Bytes, Request.toContext, NewContext,
      Request.WithContext, hdo, ReadAll, hread]
    exact ⟨_, rfl⟩
  · intro c
    simp only [Context.String]
    cases c.Bytes lib with
    | none => rfl
    | some r => rfl

theorem C7_string_returns_body_witness :
    (∃ c1, (Get sampleLib ⟨none⟩ "http://example.test").String sampleLib
        = some (c1, GoString.ofBytes [72, 105], none)) ∧
    (∀ c : Context, c.String sampleLib =
        (c.Bytes sampleLib).map fun r => (r.1, GoString.ofBytes r.2.1, r.2.2)) :=
  C7_string_returns_body sampleLib ⟨none⟩ "http://example.test" ⟨"http://example.test"⟩
    { status := 200, header := [("K", "T")], body := ⟨[72, 105], none, 0, 0⟩ } rfl rfl rfl

/-- C8: the code at every failing input. For a URL that parses, the request of
the context `Post` returns has the method GET, never POST, a nil body, and the
Content-Type header set to the content type given. -/
theorem C8_post_request_has_method_get {V : Type} (lib : Lib V) (ctx : GoCtx)
    (url contentType : String) (body : Option Bytes) (u : URL)
    (hurl : lib.parseURL url = .ok u) :
    (Post lib ctx url contentType body).req
      = some { method := "GET", url := some u, header := [("Content-Type", contentType)],
               body := none, ctx := ctx } ∧
    (Post lib ctx url contentType body).req.map (fun r => r.method) ≠ some MethodPost ∧
    (Post lib ctx url contentType body).err = none := by
  rw [Post_eq_toContext lib ctx url contentType body u hurl]
  refine ⟨rfl, ?_, rfl⟩
  simp [Request.toContext, Request.WithContext, NewContext, MethodPost]

theorem C8_post_request_has_method_get_witness :
    (Post sampleLib ⟨none⟩ "http://example.test" "text/plain" (some [1, 2])).req
      = some { method := "GET", url := some ⟨"http://example.test"⟩,
               header := [("Content-Type", "text/plain")], body := none, ctx := ⟨none⟩ } ∧
    (Post sampleLib ⟨none⟩ "http://example.test" "text/plain" (some [1, 2])).req.map
      (fun r => r.method) ≠ some MethodPost ∧
    (Post sampleLib ⟨none⟩ "http://example.test" "text/plain" (some [1, 2])).err = none :=
  C8_post_request_has_method_get sampleLib ⟨none⟩ "http://example.test" "text/plain"
    (some [1, 2]) ⟨"http://example.test"⟩ rfl

/-- C9: the code at every failing input. For a URL that parses and a value
that marshals, the request of the context `JSON` (respectively `XML`) returns
has a nil body: the marshaled bytes are handed to `Post`, which drops them. -/
theorem C9_json_xml_request_has_no_body {V : Type} (lib : Lib V) (ctx : GoCtx) (url : String)
    (v : V) (u : URL) (js xs : Bytes) (hurl : lib.parseURL url = .ok u)
    (hjson : lib.jsonMarshal v = .ok js) (hxml : lib.xmlMarshal v = .ok xs) :
    (JSON lib ctx url v).req
      = some { method := "GET", url := some u, header := [("Content-Type", "application/json")],
               body := none, ctx := ctx } ∧
    (XML lib ctx url v).req
      = some { method := "GET", url := some u, header := [("Content-Type", "application/xml")],
               body := none, ctx := ctx } := by
  constructor
  · simp only [JSON, hjson]
    rw [Post_eq_toContext lib ctx url "application/json" (some js) u hurl]
    rfl
  · simp only [XML, hxml]
    rw [Post_eq_toContext lib ctx url "application/xml" (some xs) u hurl]
    rfl

theorem C9_json_xml_request_has_no_body_witness :
    (JSON sampleLib ⟨none⟩ "http://example.test" 7).req
      = some { method := "GET", url := some ⟨"http://example.test"⟩,
               header := [("Content-Type", "application/json")], body := none,
               ctx := ⟨none⟩ } ∧
    (XML sampleLib ⟨none⟩ "http://example.test" 7).req
      = some { method := "GET", url := some ⟨"http://example.test"⟩,
               header := [("Content-Type", "application/xml")], body := none,
               ctx := ⟨none⟩ } :=
  C9_json_xml_request_has_no_body sampleLib ⟨none⟩ "http://example.test" 7
    ⟨"http://example.test"⟩ [34, 118, 34] [60, 118, 47, 62] rfl rfl rfl

/-- C10: on a context with a request, no construction error, an empty
middleware chain and an unused execute-once guard, `Do` hands the request of
the context to its client (the default client when none is set), returns the
receiver with the error of the transport unchanged, and stores the response of
the transport. -/
theorem C10_do_returns_transport_result {V : Type} (lib : Lib V) (c : Context) (r : Request)
    (herr : c.err = none) (hreq : c.req = some r) (hmw : c.middleware = [])
    (hfresh : c.doOnce.done = false) :
    ∃ c1, c.Do lib = some (c1, CtxRef.self, ((c.client.getD lib.DefaultClient).Do r).2) ∧
      c1.Response = ((c.client.getD lib.DefaultClient).Do r).1 ∧
      c1.sent = c.sent ++ [r] := by
  rw [Do_fresh lib c r herr hreq hfresh, hmw]
  have hterm : applyMiddleware terminal [] = terminal := rfl
  rw [hterm]
  simp only [terminal, withDefaultClient, hreq]
  exact ⟨_, rfl, rfl, rfl⟩

theorem C10_do_returns_transport_result_witness :
    ∃ c1, ((Request.toContext ⟨none⟩ sampleReq).WithClient (some failClient)).Do sampleLib
        = some (c1, CtxRef.self, some ⟨"context deadline exceeded"⟩) ∧
      c1.Response = none ∧ c1.sent = [] ++ [sampleReq] :=
  C10_do_returns_transport_result sampleLib
    ((Request.toContext ⟨none⟩ sampleReq).WithClient (some failClient)) sampleReq rfl rfl rfl rfl

/-- C11: on a context with no request and no construction error, every call
of `Do` returns the receiver with the non-nil error "nil request" and leaves
the context as it was: no request reaches the transport and no middleware
handler is run, whatever the chain holds. -/
theorem C11_missing_request_is_rejected {V : Type} (lib : Lib V) (c : Context)
    (herr : c.err = none) (hreq : c.req = none) :
    c.Do lib = some (c, CtxRef.self, some (errorsNew "nil request")) ∧
    (∀ n, DoN lib n c = some c) ∧
    (∀ n c1, DoN lib n c = some c1 → c1.sent = c.sent ∧ c1.log = c.log ∧
      c1.Response = c.Response) := by
  have hdo := Do_nil_request lib c herr hreq
  have hN : ∀ n, DoN lib n c = some c := by
    intro n
    induction n with
    | zero => rfl
    | succ k ih => simp only [DoN, hdo]; exact ih
  refine ⟨hdo, hN, ?_⟩
  intro n c1 h
  rw [hN n] at h
  injection h with h
  subst h
  exact ⟨rfl, rfl, rfl⟩

theorem C11_missing_request_is_rejected_witness :
    (NewContext.Use [panicOnEntry]).Do sampleLib
      = some (NewContext.Use [panicOnEntry], CtxRef.self, some ⟨"nil request"⟩) ∧
    (∀ n, DoN sampleLib n (NewContext.Use [panicOnEntry])
      = some (NewContext.Use [panicOnEntry])) ∧
    (∀ n c1, DoN sampleLib n (NewContext.Use [panicOnEntry]) = some c1 →
      c1.sent = [] ∧ c1.log = [] ∧ c1.Response = none) :=
  C11_missing_request_is_rejected sampleLib (NewContext.Use [panicOnEntry]) rfl rfl

/-- C12, the claim as stated fails: on the context a completed `Do` left,
after `Use(m)` each further `Do` applies `m` when it composes the chain, before
it consults the execute-once guard; two further calls apply it twice. -/
theorem C12_later_do_applies_middleware :
    ∃ c c2, (Request.toContext ⟨none⟩ sampleReq).Do sampleLib = some (c, CtxRef.self, none) ∧
      (c.Use [panicOnEntry]).DoTraced sampleLib
        = (some (c2, CtxRef.self, none), [panicOnEntry]) ∧
      (c2.DoTraced sampleLib).2 = [panicOnEntry] ∧
      (c.Use [panicOnEntry]).Do sampleLib = some (c2, CtxRef.self, none) :=
  ⟨_, _, rfl, rfl, rfl, rfl⟩

/-- C12 as amended: when a call of `Do` has returned, leaving the context `c`,
then for every middleware `m` and every number of further calls of `Do` after
`Use(m)`, each call returns without running the handler `m` builds: no request
reaches the transport, the stored response is unchanged, and so is every other
field but the client (a nil client is set to the default). Each such call on a
context with a request and no construction error does apply the middleware of
the chain, `m` first, to compose the handler it then leaves unused. -/
theorem C12_use_after_do_has_no_effect {V : Type} (lib : Lib V) (c0 c : Context)
    (r : CtxRef) (e : Option Error) (m : MiddlewareFunc)
    (hdone : c0.Do lib = some (c, r, e)) (n : Nat) :
    ∃ cn, DoN lib n (c.Use [m]) = some cn ∧ cn.sent = c.sent ∧
      cn.Response = c.Response ∧ cn.log = c.log ∧ SameButClient cn.toFields c.toFields ∧
      cn.middleware = c.middleware ++ [m] ∧
      (cn.DoTraced lib).1 = cn.Do lib ∧
      (c.err = none → c.req.isSome = true →
        (cn.DoTraced lib).2 = m :: c.middleware.reverse) := by
  have hset : Settled (c.Use [m]).toFields := Do_settles lib c0 c r e hdone
  obtain ⟨cn, hrun, hsame, hmw⟩ := DoN_settled lib n (c.Use [m]) hset
  have hsame2 : SameButClient cn.toFields c.toFields := hsame
  have hmw2 : cn.middleware = c.middleware ++ [m] := hmw
  refine ⟨cn, hrun, hsame2.2.2.2.2.2.2.1, hsame2.2.1, hsame2.2.2.2.2.2.2.2, hsame2, hmw2,
    DoTraced_fst lib cn, ?_⟩
  intro herr hreq
  have herr2 : cn.err = none := hsame2.2.2.1.trans herr
  have hreq2 : cn.req.isSome = true := by rw [hsame2.1]; exact hreq
  rw [DoTraced_calls lib cn herr2 hreq2, hmw2, List.reverse_append]
  rfl

theorem C12_use_after_do_has_no_effect_witness :
    ∃ c cn, (Request.toContext ⟨none⟩ sampleReq).Do sampleLib = some (c, CtxRef.self, none) ∧
      DoN sampleLib 2 (c.Use [panicOnEntry]) = some cn ∧ cn.sent = [sampleReq] ∧
      cn.Response = c.Response ∧ cn.log = [] ∧
      (cn.DoTraced sampleLib).2 = panicOnEntry :: c.middleware.reverse := by
  obtain ⟨cn, h1, h2, h3, h4, _, _, _, h8⟩ :=
    C12_use_after_do_has_no_effect sampleLib (Request.toContext ⟨none⟩ sampleReq) _
      CtxRef.self none panicOnEntry rfl 2
  exact ⟨_, cn, rfl, h1, h2, h3, h4, h8 rfl rfl⟩

/-- C13: on a context whose body has been materialized (the read-once guard is
done, the bytes are `c.bytes`), `IntoJSON(v)` and `IntoXML(v)` return exactly
what the decoder returns for those bytes and `v` and leave the context as it
was, so a decode after an earlier decode, failed or not, sees the same bytes
and causes no transport call or body read. Whenever `Bytes()` returns bytes
with a nil error these are the bytes decoded; when `Bytes()` returns an error
the decoder is not called, the destination is untouched and that error is
returned. -/
theorem C13_decode_uses_memoized_bytes {V D : Type} (lib : Lib V) (dec : Decoder D)
    (c : Context) (v : D) :
    (c.readOnce.done = true →
      c.IntoJSON lib dec v = some (c, dec.jsonUnmarshal c.bytes v) ∧
      c.IntoXML lib dec v = some (c, dec.xmlUnmarshal c.bytes v) ∧
      (∀ w : D, (c.IntoJSON lib dec v).bind (fun r => r.1.IntoJSON lib dec w)
        = some (c, dec.jsonUnmarshal c.bytes w)) ∧
      (∀ w : D, (c.IntoXML lib dec v).bind (fun r => r.1.IntoXML lib dec w)
        = some (c, dec.xmlUnmarshal c.bytes w))) ∧
    (∀ c1 bs, c.Bytes lib = some (c1, bs, none) →
      c.IntoJSON lib dec v = some (c1, dec.jsonUnmarshal bs v) ∧
      c.IntoXML lib dec v = some (c1, dec.xmlUnmarshal bs v)) ∧
    (∀ c1 bs e, c.Bytes lib = some (c1, bs, some e) →
      c.IntoJSON lib dec v = some (c1, v, some e) ∧
      c.IntoXML lib dec v = some (c1, v, some e)) := by
  have hj : ∀ (x : Context) (w : D), x.readOnce.done = true →
      x.IntoJSON lib dec w = some (x, dec.jsonUnmarshal x.bytes w) := by
    intro x w hx
    simp only [Context.IntoJSON, Bytes_done lib x hx]
  have hx : ∀ (x : Context) (w : D), x.readOnce.done = true →
      x.IntoXML lib dec w = some (x, dec.xmlUnmarshal x.bytes w) := by
    intro x w hx
    simp only [Context.IntoXML, Bytes_done lib x hx]
  refine ⟨?_, ?_, ?_⟩
  · intro hdone
    refine ⟨hj c v hdone, hx c v hdone, ?_, ?_⟩
    · intro w
      rw [hj c v hdone]
      exact hj c w hdone
    · intro w
      rw [hx c v hdone]
      exact hx c w hdone
  · intro c1 bs hb
    constructor
    · simp only [Context.IntoJSON, hb]
    · simp only [Context.IntoXML, hb]
  · intro c1 bs e hb
    constructor
    · simp only [Context.IntoJSON, hb]
    · simp only [Context.IntoXML, hb]

theorem C13_decode_uses_memoized_bytes_witness :
    sampleRead.readOnce.done = true ∧
    (sampleRead.IntoJSON sampleLib sampleDecoder [] = some (sampleRead, [72, 105], none) ∧
      sampleRead.IntoXML sampleLib sampleDecoder [] = some (sampleRead, [], some ⟨"EOF"⟩) ∧
      (∀ w : Bytes,
        (sampleRead.IntoJSON sampleLib sampleDecoder []).bind
            (fun r => r.1.IntoJSON sampleLib sampleDecoder w)
          = some (sampleRead, sampleDecoder.jsonUnmarshal [72, 105] w)) ∧
      (∀ w : Bytes,
        (sampleRead.IntoXML sampleLib sampleDecoder []).bind
            (fun r => r.1.IntoXML sampleLib sampleDecoder w)
          = some (sampleRead, sampleDecoder.xmlUnmarshal [72, 105] w))) ∧
    (∃ c1, ((Request.toContext ⟨none⟩ sampleReq).WithClient (some failClient)).IntoJSON
        sampleLib sampleDecoder [1] = some (c1, [1], some ⟨"context deadline exceeded"⟩)) :=
  ⟨rfl,
    (C13_decode_uses_memoized_bytes sampleLib sampleDecoder sampleRead []).1 rfl,
    ⟨_, ((C13_decode_uses_memoized_bytes sampleLib sampleDecoder
      ((Request.toContext ⟨none⟩ sampleReq).WithClient (some failClient)) [1]).2.2
        _ [] ⟨"context deadline exceeded"⟩ rfl).1⟩⟩

/-- C14: after any sequence of `Use(...)` and `CleanMiddleware()` calls the
chain is the concatenation, in call and argument order, of the arguments of the
`Use` calls since the last `CleanMiddleware()` (appended to the chain the
context started with when there was no `CleanMiddleware()`), and every other
field is unchanged; `Use` appends its arguments, `CleanMiddleware` empties the
chain, and each returns the receiver with its other fields as they were. -/
theorem C14_use_and_clean_edit_only_the_chain (c : Context) (ops : List ChainOp) :
    (runChainOps c ops).middleware = chainAfter c.middleware ops ∧
    (runChainOps c ops).toFields = c.toFields ∧
    (∀ ms, (c.Use ms).middleware = c.middleware ++ ms ∧ (c.Use ms).toFields = c.toFields) ∧
    (c.CleanMiddleware.middleware = [] ∧ c.CleanMiddleware.toFields = c.toFields) := by
  refine ⟨?_, ?_, fun ms => ⟨rfl, rfl⟩, rfl, rfl⟩
  · induction ops using List.reverseRecOn with
    | nil => simp [runChainOps, chainAfter, sinceLastClean]
    | append_singleton ops op ih =>
      rw [runChainOps_snoc]
      cases op with
      | use ms =>
        rw [chainAfter_snoc_use, ← ih]
        rfl
      | clean =>
        rw [chainAfter_snoc_clean]
        rfl
  · induction ops using List.reverseRecOn with
    | nil => rfl
    | append_singleton ops op ih =>
      rw [runChainOps_snoc]
      cases op with
      | use ms => exact ih
      | clean => exact ih

/-- C15, the claim as stated fails: `swallowError` calls its next handler and
`denyWith` returns its error without calling next, yet with the chain
`swallowError, denyWith e, panicOnEntry` the first `Do` returns a nil error,
not `e` (the transport is not invoked and `panicOnEntry` is not entered). -/
theorem C15_outer_middleware_replaces_error :
    CallsNextOnce swallowError ∧
    ShortCircuits (denyWith ⟨"denied"⟩) ⟨"denied"⟩ ∧
    ∃ c1, ((Request.toContext ⟨none⟩ sampleReq).Use
        [swallowError, denyWith ⟨"denied"⟩, panicOnEntry]).Do sampleLib
          = some (c1, CtxRef.self, none) ∧ c1.sent = [] :=
  ⟨⟨fun c => c, fun _ c _ => (c, none), fun _ hc => ⟨hc, rfl⟩, fun _ _ _ => rfl,
      fun _ _ _ => rfl⟩,
    ⟨fun c => c, fun _ => rfl, fun _ _ => rfl⟩,
    ⟨_, rfl, rfl⟩⟩

/-- C15 as amended: on a not yet executed context with a request and no
construction error whose chain holds a middleware that returns the error `e`
without calling its next handler, when every middleware registered before it
calls next exactly once and returns the error next returned, the first `Do`
returns `e`, no request reaches the transport, and the outcome is the same
whatever is registered after that middleware: none of it is entered. -/
theorem C15_short_circuit_returns_error {V : Type} (lib : Lib V) (c : Context)
    (pre post : List MiddlewareFunc) (b : MiddlewareFunc) (e : Error)
    (herr : c.err = none) (hreq : c.req.isSome = true) (hfresh : c.doOnce.done = false)
    (hchain : c.middleware = pre ++ b :: post)
    (hpre : ∀ m ∈ pre, PassesErrorOn m) (hb : ShortCircuits b e) :
    ∃ c1, c.Do lib = some (c1, CtxRef.self, some e) ∧ c1.sent = c.sent ∧
      ∀ post2 : List MiddlewareFunc, ∃ c2,
        ({ c with middleware := pre ++ b :: post2 } : Context).Do lib
          = some (c2, CtxRef.self, some e) ∧ c2.toFields = c1.toFields := by
  obtain ⟨r, hr⟩ := Option.isSome_iff_exists.mp hreq
  obtain ⟨g, hg, hbg⟩ := hb
  have hready : Ready (withDefaultClient lib c.toFields) := ⟨rfl, hreq⟩
  obtain ⟨f, hrun, hsent⟩ := chain_passes_error pre hpre e g hg _ hready
  have hany : ∀ rest : List MiddlewareFunc,
      ({ c with middleware := pre ++ b :: rest } : Context).Do lib
        = some ({ toFields := { f with doOnce := ⟨true⟩ }, middleware := pre ++ b :: rest },
            CtxRef.self, some e) := by
    intro rest
    rw [Do_fresh lib ({ c with middleware := pre ++ b :: rest } : Context) r herr hr hfresh,
      applyMiddleware_eq_foldr]
    simp only []
    rw [foldr_short_circuit pre rest b e g hbg, hrun]
  have hc : c = ({ c with middleware := pre ++ b :: post } : Context) := by
    obtain ⟨f0, mw⟩ := c
    simp only at hchain
    subst hchain
    rfl
  refine ⟨{ toFields := { f with doOnce := ⟨true⟩ }, middleware := pre ++ b :: post }, ?_,
    hsent, ?_⟩
  · rw [← hany post, ← hc]
  · intro post2
    exact ⟨_, hany post2, rfl⟩

theorem C15_short_circuit_returns_error_witness :
    ∃ c1, ((Request.toContext ⟨none⟩ sampleReq).Use
        [passThrough, denyWith ⟨"denied"⟩, panicOnEntry]).Do sampleLib
          = some (c1, CtxRef.self, some ⟨"denied"⟩) ∧
      c1.sent = [] ∧
      ∀ post2 : List MiddlewareFunc, ∃ c2,
        ({ (Request.toContext ⟨none⟩ sampleReq).Use
              [passThrough, denyWith ⟨"denied"⟩, panicOnEntry] with
            middleware := [passThrough] ++ denyWith ⟨"denied"⟩ :: post2 } : Context).Do
              sampleLib
          = some (c2, CtxRef.self, some ⟨"denied"⟩) ∧ c2.toFields = c1.toFields :=
  C15_short_circuit_returns_error sampleLib
    ((Request.toContext ⟨none⟩ sampleReq).Use [passThrough, denyWith ⟨"denied"⟩, panicOnEntry])
    [passThrough] [panicOnEntry] (denyWith ⟨"denied"⟩) ⟨"denied"⟩ rfl rfl rfl rfl
    (by
      intro m hm
      have hm2 : m = passThrough := by simpa using hm
      subst hm2
      refine ⟨fun c => c, fun _ c _ => c, fun _ hc => ⟨hc, rfl⟩, fun _ _ _ => rfl, ?_⟩
      intro next c _
      simp only [passThrough]
      cases next c with
      | none => rfl
      | some p => rfl)
    ⟨fun c => c, fun _ => rfl, fun _ _ => rfl⟩

/-- C16: `Do` returns the nil pointer only on the construction-error path.
With a construction error set it returns nil and that error; with none, it
returns the receiver on the missing-request path (with the error "nil
request"), when the execute-once guard is already done (with a nil error), and
whenever the chain it runs returns (with the error of the chain); hence every
`Do` that returns on a context without construction error returns the
receiver. -/
theorem C16_do_first_result {V : Type} (lib : Lib V) (c : Context) :
    (∀ e, c.err = some e → c.Do lib = some (c, CtxRef.null, some e)) ∧
    (c.err = none → c.req = none →
      c.Do lib = some (c, CtxRef.self, some (errorsNew "nil request"))) ∧
    (c.err = none → c.req.isSome = true → c.doOnce.done = true →
      ∃ c1, c.Do lib = some (c1, CtxRef.self, none)) ∧
    (c.err = none → c.req.isSome = true → c.doOnce.done = false →
      ∀ f e, applyMiddleware terminal c.middleware (withDefaultClient lib c.toFields)
          = some (f, e) →
        ∃ c1, c.Do lib = some (c1, CtxRef.self, e)) ∧
    (c.err = none → ∀ c1 r e, c.Do lib = some (c1, r, e) → r = CtxRef.self) := by
  have h3 : c.err = none → c.req.isSome = true → c.doOnce.done = true →
      ∃ c1, c.Do lib = some (c1, CtxRef.self, none) := by
    intro herr hreq hdone
    obtain ⟨rq, hr⟩ := Option.isSome_iff_exists.mp hreq
    obtain ⟨f, mw⟩ := c
    obtain ⟨client, req, resp, err, readOnce, doOnce, bytes, sent, log⟩ := f
    obtain ⟨d⟩ := doOnce
    simp only at herr hr hdone
    subst herr hr hdone
    cases client with
    | none => exact ⟨_, rfl⟩
    | some cl => exact ⟨_, rfl⟩
  have h4 : c.err = none → c.req.isSome = true → c.doOnce.done = false →
      ∀ f e, applyMiddleware terminal c.middleware (withDefaultClient lib c.toFields)
          = some (f, e) →
        ∃ c1, c.Do lib = some (c1, CtxRef.self, e) := by
    intro herr hreq hfresh f e hrun
    obtain ⟨rq, hr⟩ := Option.isSome_iff_exists.mp hreq
    rw [Do_fresh lib c rq herr hr hfresh, hrun]
    exact ⟨_, rfl⟩
  refine ⟨fun e he => Do_construction_error lib c e he,
    fun herr hreq => Do_nil_request lib c herr hreq, h3, h4, ?_⟩
  intro herr c1 r e hdo
  cases hreq : c.req with
  | none =>
    rw [Do_nil_request lib c herr hreq] at hdo
    injection hdo with hdo
    injection hdo with _ hdo
    injection hdo with hdo _
    exact hdo.symm
  | some rq =>
    have hsome : c.req.isSome = true := by rw [hreq]; rfl
    cases hd : c.doOnce.done with
    | true =>
      obtain ⟨c2, h⟩ := h3 herr hsome hd
      rw [h] at hdo
      injection hdo with hdo
      injection hdo with _ hdo
      injection hdo with hdo _
      exact hdo.symm
    | false =>
      rw [Do_fresh lib c rq herr hreq hd] at hdo
      split at hdo
      · exact absurd hdo (by simp)
      · injection hdo with hdo
        injection hdo with _ hdo
        injection hdo with hdo _
        exact hdo.symm

theorem C16_do_first_result_witness :
    (Get sampleLib ⟨none⟩ "://bad").Do sampleLib
      = some (Get sampleLib ⟨none⟩ "://bad", CtxRef.null, some ⟨"missing protocol scheme"⟩) ∧
    NewContext.Do sampleLib = some (NewContext, CtxRef.self, some ⟨"nil request"⟩) ∧
    (∃ c1, sampleRead.Do sampleLib = some (c1, CtxRef.self, none)) ∧
    (∃ c1, ((Request.toContext ⟨none⟩ sampleReq).WithClient (some failClient)).Do sampleLib
      = some (c1, CtxRef.self, some ⟨"context deadline exceeded"⟩)) :=
  ⟨(C16_do_first_result sampleLib (Get sampleLib ⟨none⟩ "://bad")).1 _ rfl,
    (C16_do_first_result sampleLib NewContext).2.1 rfl rfl,
    (C16_do_first_result sampleLib sampleRead).2.2.1 rfl rfl rfl,
    (C16_do_first_result sampleLib
      ((Request.toContext ⟨none⟩ sampleReq).WithClient (some failClient))).2.2.2.1
        rfl rfl rfl _ _ rfl⟩

/-- C17, the claim as stated fails: the context `Request` returns for
`&http.Request{}` has a request, whose URL is nil; with a failing client the
terminal handler returns its error, but `AccessLog` around it panics in
`url.String()` instead of returning that error, and so does `Do`. -/
theorem C17_access_log_panics_on_nil_url :
    ((Request.toContext ⟨none⟩ bareReq).WithClient (some failClient)).req.isSome = true ∧
    (∃ c1, terminal ((Request.toContext ⟨none⟩ bareReq).WithClient (some failClient)).toFields
      = some (c1, some ⟨"context deadline exceeded"⟩)) ∧
    AccessLog terminal ((Request.toContext ⟨none⟩ bareReq).WithClient (some failClient)).toFields
      = none ∧
    (((Request.toContext ⟨none⟩ bareReq).WithClient (some failClient)).Use [AccessLog]).Do
      sampleLib = none :=
  ⟨rfl, ⟨_, rfl⟩, rfl, rfl⟩

/-- C17 as amended: on a context that has a request whose URL is not nil,
`AccessLog(next)` runs `next` once on that same context: it panics exactly when
`next` does, and otherwise returns the error `next` returned (nil for nil) and
the context `next` left, with one log line added (the error line for an error,
the info line for nil) and no other field changed. -/
theorem C17_access_log_is_transparent (next : HandlerFunc) (c : Fields) (r : Request)
    (u : URL) (hreq : c.req = some r) (hurl : r.url = some u) :
    (next c = none → AccessLog next c = none) ∧
    (∀ c1 e, next c = some (c1, e) →
      ∃ line, AccessLog next c = some ({ c1 with log := c1.log ++ [line] }, e) ∧
        line = (match e with
                | some err => LogLine.error err.msg
                | none => LogLine.info)) ∧
    (AccessLog next c =
      (next c).map fun p =>
        ({ p.1 with
            log := p.1.log ++
              [match p.2 with
               | some err => LogLine.error err.msg
               | none => LogLine.info] }, p.2)) := by
  refine ⟨?_, ?_, AccessLog_eq next c r u hreq hurl⟩
  · intro hn
    rw [AccessLog_eq next c r u hreq hurl, hn]
    rfl
  · intro c1 e hn
    rw [AccessLog_eq next c r u hreq hurl, hn]
    exact ⟨_, rfl, rfl⟩

theorem C17_access_log_is_transparent_witness :
    (terminal (withDefaultClient sampleLib (Request.toContext ⟨none⟩ sampleReq).toFields) = none →
      AccessLog terminal
        (withDefaultClient sampleLib (Request.toContext ⟨none⟩ sampleReq).toFields) = none) ∧
    (∀ c1 e,
      terminal (withDefaultClient sampleLib (Request.toContext ⟨none⟩ sampleReq).toFields)
        = some (c1, e) →
      ∃ line,
        AccessLog terminal
          (withDefaultClient sampleLib (Request.toContext ⟨none⟩ sampleReq).toFields)
            = some ({ c1 with log := c1.log ++ [line] }, e) ∧
        line = (match e with
                | some err => LogLine.error err.msg
                | none => LogLine.info)) ∧
    (AccessLog terminal
        (withDefaultClient sampleLib (Request.toContext ⟨none⟩ sampleReq).toFields) =
      (terminal (withDefaultClient sampleLib (Request.toContext ⟨none⟩ sampleReq).toFields)).map
        fun p =>
          ({ p.1 with
              log := p.1.log ++
                [match p.2 with
                 | some err => LogLine.error err.msg
                 | none => LogLine.info] }, p.2)) :=
  C17_access_log_is_transparent terminal
    (withDefaultClient sampleLib (Request.toContext ⟨none⟩ sampleReq).toFields) sampleReq
    ⟨"http://example.test"⟩ rfl rfl

end Httprpc
